import Mathlib

/-!
Shallow embedding of `src/bin/setup.js` (the DevWorkflowSetup class of the
dev-workflow-config scaffolding tool) and proofs about its behaviour.

Modelling conventions:
* JSON documents (the target manifest) are modelled by the inductive `Json`;
  numbers are `Int` (no float arithmetic occurs in the source).
* JavaScript truthiness (`!x` checks in the source) is `jsTruthy` /
  `truthyOpt`; a missing property reads as `undefined`, i.e. `none`.
* JavaScript objects are association lists; property assignment replaces an
  existing key in place and appends a fresh key at the end, which matches
  JS own-property insertion order.  Property assignment on a non-object
  receiver is a strict-mode TypeError, modelled as `none` (ES modules run
  in strict mode); property reads on non-object receivers yield `undefined`.
* The file system visible to the tool is an association list from
  project-root-relative paths to file entries (content plus executable bit).
  Directories are implicit (`fs.ensureDir` has no observable effect here).
  File content is opaque: `Content.template src` stands for the bytes of
  the shipped template file `src`, `Content.user tag` for arbitrary
  pre-existing user content, `Content.manifest j` for a JSON document
  serialized by `fs.writeJson` / parsed by `fs.readJson`.
* Delegated external processes (git probe, package-manager install,
  `npx husky init`) are out of scope per the spec; only their exit status
  is modelled, through the `Env` record.
-/

inductive Json where
  | null
  | bool (b : Bool)
  | num (n : Int)
  | str (s : String)
  | arr (elems : List Json)
  | obj (fields : List (String × Json))

/-- JavaScript truthiness of a value (NaN does not occur in the source). -/
def jsTruthy : Json → Bool
  | Json.null => false
  | Json.bool b => b
  | Json.num n => n != 0
  | Json.str s => s != ""
  | Json.arr _ => true
  | Json.obj _ => true

/-- Truthiness of a property read; a missing property is `undefined`, falsy. -/
def truthyOpt : Option Json → Bool
  | none => false
  | some j => jsTruthy j

/-- Association-list lookup (first binding wins; JS objects have unique keys). -/
def lookupA {α : Type} : List (String × α) → String → Option α
  | [], _ => none
  | (k, v) :: rest, key => if k = key then some v else lookupA rest key

/-- Association-list update: replace an existing binding in place, else
append at the end, matching JS own-property insertion order. -/
def setA {α : Type} : List (String × α) → String → α → List (String × α)
  | [], key, v => [(key, v)]
  | (k, w) :: rest, key, v =>
    if k = key then (key, v) :: rest else (k, w) :: setA rest key v

/-- Property read `j[key]`; non-objects have none of the properties the
source reads, so the read is `undefined`. -/
def getField : Json → String → Option Json
  | Json.obj fields, key => lookupA fields key
  | _, _ => none

/-- Property write `j[key] = v`; on a non-object receiver this is a
strict-mode TypeError, modelled as `none`. -/
def setField : Json → String → Json → Option Json
  | Json.obj fields, key, v => some (Json.obj (setA fields key v))
  | _, _, _ => none

/-- Two-level property read `j[k1][k2]` as the source performs it (the outer
read yielding `undefined` makes the inner read yield `undefined` for the
truthiness checks modelled here). -/
def getField2 (j : Json) (k1 k2 : String) : Option Json :=
  getField ((getField j k1).getD Json.null) k2

/-- The fixed `scriptsToAdd` table of `updatePackageJson`
(`Object.entries` order: prepare first, then commit). -/
def scriptsToAdd : List (String × String) :=
  [("prepare", "husky"), ("commit", "cz")]

/-- The fixed commitizen configuration object the source assigns. -/
def czConfig : Json :=
  Json.obj [("path", Json.str "cz-conventional-changelog")]

/-- `if (!packageJson.KEY) packageJson.KEY = \x7b\x7d` from the source. -/
def ensureField (pkg : Json) (key : String) : Option Json :=
  if truthyOpt (getField pkg key) then some pkg
  else setField pkg key (Json.obj [])

/-- The `for (const [script, command] of Object.entries(scriptsToAdd))` loop:
adds each script only when `!packageJson.scripts[script]`, tracking
`scriptsAdded`. -/
def addScriptsLoop : Json → Bool → List (String × String) → Option (Json × Bool)
  | pkg, acc, [] => some (pkg, acc)
  | pkg, acc, (script, command) :: rest =>
    let scriptsVal := (getField pkg "scripts").getD Json.null
    if truthyOpt (getField scriptsVal script) then
      addScriptsLoop pkg acc rest
    else do
      let scripts2 ← setField scriptsVal script (Json.str command)
      let pkg2 ← setField pkg "scripts" scripts2
      addScriptsLoop pkg2 true rest

/-- `if (!packageJson.config.commitizen) packageJson.config.commitizen = ...`. -/
def addCommitizen (pkg : Json) : Option Json :=
  let configVal := (getField pkg "config").getD Json.null
  if truthyOpt (getField configVal "commitizen") then some pkg
  else do
    let config2 ← setField configVal "commitizen" czConfig
    setField pkg "config" config2

/-- `if (!packageJson.type) packageJson.type = 'module'`. -/
def addType (pkg : Json) : Option Json :=
  if truthyOpt (getField pkg "type") then some pkg
  else setField pkg "type" (Json.str "module")

/-- The in-memory part of `updatePackageJson` (lines 134-173 of
`src/bin/setup.js`): returns the patched manifest and the write-back flag
`scriptsAdded || !packageJson.config.commitizen || !packageJson.type`,
the last two conjuncts evaluated on the already-patched document exactly
as the source does. -/
def updatePackageJson (pkg0 : Json) : Option (Json × Bool) := do
  let pkg1 ← ensureField pkg0 "scripts"
  let (pkg2, scriptsAdded) ← addScriptsLoop pkg1 false scriptsToAdd
  let pkg3 ← ensureField pkg2 "config"
  let pkg4 ← addCommitizen pkg3
  let pkg5 ← addType pkg4
  let wrote := scriptsAdded
      || !truthyOpt (getField2 pkg5 "config" "commitizen")
      || !truthyOpt (getField pkg5 "type")
  some (pkg5, wrote)

/-! ## File-system model and the remaining steps -/

/-- Opaque file content: template bytes, arbitrary user bytes, or a JSON
document handled by `fs.readJson` / `fs.writeJson`. -/
inductive Content where
  | template (src : String)
  | user (tag : String)
  | manifest (j : Json)

/-- A file in the target project: its content and its executable bit. -/
structure FileEntry where
  content : Content
  exec : Bool

/-- The target project tree, keyed by project-root-relative path. -/
abbrev FS := List (String × FileEntry)

/-- Character-level prefix test, the semantics of JS `String.prototype.startsWith`. -/
def strStartsWith (s p : String) : Bool :=
  List.isPrefixOf p.data s.data

/-- `path.join(this.projectRoot, 'package.json')`, root-relative. -/
def packageJsonPath : String := "package.json"

/-- The fixed `filesToCopy` table of `copyConfigFiles` (src, dest). -/
def filesToCopy : List (String × String) :=
  [ (".lintstagedrc.js", ".lintstagedrc.js"),
    ("commitlint.config.js", "commitlint.config.js"),
    (".nvmrc", ".nvmrc"),
    (".vscode/settings.json", ".vscode/settings.json"),
    (".vscode/extensions.json", ".vscode/extensions.json"),
    (".husky/pre-commit", ".husky/pre-commit"),
    (".husky/pre-push", ".husky/pre-push"),
    (".husky/commit-msg", ".husky/commit-msg") ]

/-- The console label printed per copied file. -/
inductive CopyAction where
  | created
  | updated
  | skipped
deriving DecidableEq, Repr

/-- `fs.chmod(destPath, '755')`: set the executable bit of an existing file. -/
def fsChmod (fs : FS) (p : String) : FS :=
  match lookupA fs p with
  | some e => setA fs p ⟨e.content, true⟩
  | none => fs

/-- One iteration of the `for (const file of filesToCopy)` loop
(lines 106-129 of `src/bin/setup.js`): `fs.ensureDir` is implicit,
hook destinations are always overwritten and chmodded, other destinations
are skipped when present; the printed action re-tests `fs.pathExists`
AFTER the copy, exactly as the source does. -/
def copyOne (fs : FS) (file : String × String) : FS × CopyAction :=
  let src := file.1
  let dest := file.2
  let shouldOverwrite := strStartsWith dest ".husky/"
  if (lookupA fs dest).isSome && !shouldOverwrite then
    (fs, CopyAction.skipped)
  else
    let fs1 := setA fs dest ⟨Content.template src, false⟩
    let fs2 := if strStartsWith dest ".husky/" then fsChmod fs1 dest else fs1
    let action :=
      if shouldOverwrite && (lookupA fs2 dest).isSome then CopyAction.updated
      else CopyAction.created
    (fs2, action)

/-- The whole `copyConfigFiles` loop over a file list, returning the final
tree and the (dest, action) report in order. -/
def copyLoop (fs : FS) : List (String × String) → FS × List (String × CopyAction)
  | [] => (fs, [])
  | f :: rest =>
    let r1 := copyOne fs f
    let r2 := copyLoop r1.1 rest
    (r2.1, (f.2, r1.2) :: r2.2)

/-- `copyConfigFiles` (lines 92-132 of `src/bin/setup.js`). -/
def copyConfigFiles (fs : FS) : FS × List (String × CopyAction) :=
  copyLoop fs filesToCopy

/-- `detectPackageManager` (lines 82-90): pure lock-file dispatch. -/
inductive PM where
  | pnpm
  | yarn
  | npm
deriving DecidableEq, Repr

def detectPackageManager (fs : FS) : PM :=
  if (lookupA fs "pnpm-lock.yaml").isSome then PM.pnpm
  else if (lookupA fs "yarn.lock").isSome then PM.yarn
  else PM.npm

/-- The pinned dev-dependency list of `installDependencies`. -/
def deps : List String :=
  [ "husky@^9.1.7",
    "lint-staged@^16.1.2",
    "@commitlint/cli@^19.8.1",
    "@commitlint/config-conventional@^19.8.1",
    "commitizen@^4.3.1",
    "cz-conventional-changelog@^3.3.0" ]

/-- The shell command `installDependencies` builds (lines 71-73):
pnpm exactly when detection says pnpm, otherwise npm — including for yarn. -/
def installCmd (fs : FS) : String :=
  if detectPackageManager fs = PM.pnpm then
    "pnpm add -D " ++ String.intercalate " " deps
  else
    "npm install --save-dev " ++ String.intercalate " " deps

/-- Exit statuses of the delegated external processes, the only part of
them this tool observes (spec: external collaborators are out of scope). -/
structure Env where
  gitRepo : Bool
  installOk : Bool
  huskyOk : Bool

/-- `checkPrerequisites` (lines 38-54): read-only probe of the git repo and
of `package.json` presence; throws (Except.error) when either is missing. -/
def checkPrerequisitesE (env : Env) (fs : FS) : Except String Unit :=
  if !env.gitRepo then
    Except.error "Not in a git repository. Run git init first."
  else if (lookupA fs packageJsonPath).isNone then
    Except.error "package.json not found. Run npm init first."
  else
    Except.ok ()

/-- `installDependencies` (lines 56-80): builds the install command, runs it,
and rethrows any delegated failure as a fatal error. -/
def installDependencies (env : Env) (fs : FS) : Except String String :=
  if env.installOk then Except.ok (installCmd fs)
  else Except.error "Failed to install dependencies"

/-- `initializeHusky` (lines 178-188): the delegated `npx husky init` exit
status is swallowed by try/catch; the step never throws, it only chooses
between a success message and a warning. -/
def initializeHusky (huskyOk : Bool) : Except String Bool :=
  Except.ok huskyOk

/-- `updatePackageJson` at the file-system level: `fs.readJson`, the
in-memory patch, and the conditional `fs.writeJson` (which rewrites content
and keeps the file's mode). `none` is a thrown error (unparseable manifest
or strict-mode TypeError inside the patch). -/
def updatePackageJsonStep (fs : FS) : Option (FS × Bool) :=
  match lookupA fs packageJsonPath with
  | some entry =>
    match entry.content with
    | Content.manifest j =>
      match updatePackageJson j with
      | some (j2, wrote) =>
        if wrote then
          some (setA fs packageJsonPath ⟨Content.manifest j2, entry.exec⟩, true)
        else
          some (fs, false)
      | none => none
    | _ => none
  | none => none

/-- A finished run: the process exit code and the final project tree. -/
structure RunResult where
  exitCode : Nat
  fs : FS

/-- `run` (lines 22-36): the fixed step sequence inside try/catch; any
thrown step error leads to `process.exit(1)`, leaving the tree as the
failing step left it. `showSuccess` is pure output. -/
def run (env : Env) (fs : FS) : RunResult :=
  match checkPrerequisitesE env fs with
  | Except.error _ => ⟨1, fs⟩
  | Except.ok _ =>
    match installDependencies env fs with
    | Except.error _ => ⟨1, fs⟩
    | Except.ok _ =>
      match initializeHusky env.huskyOk with
      | Except.error _ => ⟨1, fs⟩
      | Except.ok _ =>
        let c := copyConfigFiles fs
        match updatePackageJsonStep c.1 with
        | some r => ⟨0, r.1⟩
        | none => ⟨1, c.1⟩

/-! ## Association-list lemmas -/

theorem lookupA_setA_self {α : Type} (l : List (String × α)) (k : String) (v : α) :
    lookupA (setA l k v) k = some v := by
  induction l with
  | nil => simp [setA, lookupA]
  | cons hd tl ih =>
    obtain ⟨k0, v0⟩ := hd
    by_cases h : k0 = k
    · simp [setA, h, lookupA]
    · simp [setA, h, lookupA, ih]

theorem lookupA_setA_ne {α : Type} (l : List (String × α)) (k p : String) (v : α)
    (h : p ≠ k) : lookupA (setA l k v) p = lookupA l p := by
  induction l with
  | nil =>
    simp only [setA, lookupA]
    rw [if_neg (fun hh => h hh.symm)]
  | cons hd tl ih =>
    obtain ⟨k0, v0⟩ := hd
    by_cases hk : k0 = k
    · subst hk
      have hkp : ¬ (k0 = p) := fun hh => h hh.symm
      simp [setA, lookupA, hkp]
    · simp only [setA, if_neg hk, lookupA]
      by_cases hp : k0 = p
      · simp [hp]
      · simp [hp, ih]

theorem setA_setA_same {α : Type} (l : List (String × α)) (k : String) (v w : α) :
    setA (setA l k v) k w = setA l k w := by
  induction l with
  | nil => simp [setA]
  | cons hd tl ih =>
    obtain ⟨k0, v0⟩ := hd
    by_cases h : k0 = k
    · simp [setA, h]
    · simp [setA, h, ih]

theorem setA_self_of_lookupA {α : Type} (l : List (String × α)) (k : String) (v : α)
    (h : lookupA l k = some v) : setA l k v = l := by
  induction l with
  | nil => simp [lookupA] at h
  | cons hd tl ih =>
    obtain ⟨k0, v0⟩ := hd
    by_cases hk : k0 = k
    · subst hk
      simp [lookupA] at h
      simp [setA, h]
    · simp [lookupA, hk] at h
      simp [setA, hk, ih h]

theorem lookupA_setA_isSome {α : Type} (l : List (String × α)) (k p : String) (v : α)
    (h : (lookupA l p).isSome) : (lookupA (setA l k v) p).isSome := by
  by_cases hp : p = k
  · subst hp; simp [lookupA_setA_self]
  · rwa [lookupA_setA_ne l k p v hp]

/-! ## Copy-step lemmas -/

/-- The per-file postcondition `copyConfigFiles` establishes: hook
destinations hold the template content with the executable bit set, other
destinations exist. -/
def postFor (fs : FS) (f : String × String) : Prop :=
  (strStartsWith f.2 ".husky/" = true →
    lookupA fs f.2 = some ⟨Content.template f.1, true⟩) ∧
  (strStartsWith f.2 ".husky/" = false → (lookupA fs f.2).isSome = true)

theorem copyOne_frame (fs : FS) (f : String × String) (p : String) (h : p ≠ f.2) :
    lookupA (copyOne fs f).1 p = lookupA fs p := by
  by_cases hh : strStartsWith f.2 ".husky/" <;>
    by_cases hs : (lookupA fs f.2).isSome <;>
      simp [copyOne, hh, hs, fsChmod, lookupA_setA_self,
        lookupA_setA_ne _ _ _ _ h]

theorem copyOne_post (fs : FS) (f : String × String) : postFor (copyOne fs f).1 f := by
  constructor
  · intro hh
    simp [copyOne, hh, fsChmod, lookupA_setA_self, setA_setA_same]
  · intro hh
    by_cases hs : (lookupA fs f.2).isSome <;>
      simp [copyOne, hh, hs, lookupA_setA_self]

theorem copyOne_isSome (fs : FS) (f : String × String) (p : String)
    (h : (lookupA fs p).isSome = true) : (lookupA (copyOne fs f).1 p).isSome = true := by
  by_cases hp : p = f.2
  · obtain ⟨h1, h2⟩ := copyOne_post fs f
    by_cases hh : strStartsWith f.2 ".husky/"
    · rw [hp, h1 hh]; rfl
    · rw [hp]; exact h2 (by simp [hh])
  · rw [copyOne_frame fs f p hp]; exact h

theorem copyOne_id (fs : FS) (f : String × String) (h : postFor fs f) :
    (copyOne fs f).1 = fs := by
  obtain ⟨h1, h2⟩ := h
  by_cases hh : strStartsWith f.2 ".husky/"
  · have hl := h1 hh
    simp [copyOne, hh, fsChmod, lookupA_setA_self, setA_setA_same,
      setA_self_of_lookupA _ _ _ hl]
  · have hl := h2 (by simp [hh])
    simp [copyOne, hh, hl]

theorem copyLoop_frame (l : List (String × String)) (fs : FS) (p : String)
    (h : p ∉ l.map Prod.snd) : lookupA (copyLoop fs l).1 p = lookupA fs p := by
  induction l generalizing fs with
  | nil => simp [copyLoop]
  | cons f rest ih =>
    simp only [List.map_cons, List.mem_cons, not_or] at h
    simp only [copyLoop]
    rw [ih _ h.2, copyOne_frame fs f p h.1]

theorem copyLoop_isSome (l : List (String × String)) (fs : FS) (p : String)
    (h : (lookupA fs p).isSome = true) : (lookupA (copyLoop fs l).1 p).isSome = true := by
  induction l generalizing fs with
  | nil => simpa [copyLoop]
  | cons f rest ih =>
    simp only [copyLoop]
    exact ih _ (copyOne_isSome fs f p h)

theorem postFor_of_lookup_eq {fs fs' : FS} {f : String × String}
    (h : lookupA fs' f.2 = lookupA fs f.2) (hp : postFor fs f) : postFor fs' f := by
  obtain ⟨h1, h2⟩ := hp
  exact ⟨fun hh => h.trans (h1 hh), fun hh => by rw [h]; exact h2 hh⟩

theorem copyLoop_post (l : List (String × String)) (fs : FS)
    (hnd : (l.map Prod.snd).Nodup) : ∀ f ∈ l, postFor (copyLoop fs l).1 f := by
  induction l generalizing fs with
  | nil => intro f hf; cases hf
  | cons f0 rest ih =>
    simp only [List.map_cons, List.nodup_cons] at hnd
    intro f hf
    simp only [copyLoop]
    rcases List.mem_cons.mp hf with hf0 | hfr
    · subst hf0
      refine postFor_of_lookup_eq ?_ (copyOne_post fs f)
      exact copyLoop_frame rest (copyOne fs f).1 f.2 hnd.1
    · exact ih _ hnd.2 f hfr

theorem copyLoop_id (l : List (String × String)) (fs : FS)
    (h : ∀ f ∈ l, postFor fs f) : (copyLoop fs l).1 = fs := by
  induction l with
  | nil => simp [copyLoop]
  | cons f0 rest ih =>
    simp only [copyLoop]
    rw [copyOne_id fs f0 (h f0 (List.mem_cons_self f0 rest))]
    exact ih (fun f hf => h f (List.mem_cons_of_mem f0 hf))

theorem filesToCopy_dests_nodup : (filesToCopy.map Prod.snd).Nodup := by decide

theorem packageJson_not_dest : packageJsonPath ∉ filesToCopy.map Prod.snd := by decide

/-! ## Manifest-patch lemmas -/

theorem getField2_some {j : Json} {k1 k2 : String} {v : Json}
    (h : getField2 j k1 k2 = some v) :
    ∃ flds, getField j k1 = some (Json.obj flds) ∧ lookupA flds k2 = some v := by
  unfold getField2 at h
  cases hj : getField j k1 with
  | none => rw [hj] at h; simp [getField] at h
  | some c =>
    rw [hj] at h
    cases c <;> simp [getField] at h
    next flds => exact ⟨flds, rfl, h⟩

theorem truthy1_of_truthy2 {j : Json} {k1 k2 : String}
    (h : truthyOpt (getField2 j k1 k2) = true) :
    truthyOpt (getField j k1) = true := by
  cases hg : getField2 j k1 k2 with
  | none => rw [hg] at h; simp [truthyOpt] at h
  | some v =>
    obtain ⟨flds, h1, _⟩ := getField2_some hg
    rw [h1]; rfl

theorem getField2_congr {ja jb : Json} (k1 k2 : String)
    (h : getField ja k1 = getField jb k1) : getField2 ja k1 k2 = getField2 jb k1 k2 := by
  unfold getField2; rw [h]

theorem ensureField_of_truthy {p : Json} {k : String}
    (h : truthyOpt (getField p k) = true) : ensureField p k = some p := by
  simp [ensureField, h]

theorem ensureField_post {p p' : Json} {k : String}
    (h : ensureField p k = some p') : truthyOpt (getField p' k) = true := by
  unfold ensureField at h
  by_cases ht : truthyOpt (getField p k) = true
  · rw [if_pos ht] at h
    cases h; exact ht
  · rw [if_neg ht] at h
    cases p <;> simp [setField] at h
    next flds =>
      rw [← h]
      simp [getField, lookupA_setA_self, truthyOpt, jsTruthy]

theorem ensureField_frame {p p' : Json} {k : String}
    (h : ensureField p k = some p') (k' : String) (hk : k' ≠ k) :
    getField p' k' = getField p k' := by
  unfold ensureField at h
  by_cases ht : truthyOpt (getField p k) = true
  · rw [if_pos ht] at h; cases h; rfl
  · rw [if_neg ht] at h
    cases p <;> simp [setField] at h
    next flds =>
      rw [← h]
      simp [getField, lookupA_setA_ne _ _ _ _ hk]

theorem addType_spec {p p' : Json} (h : addType p = some p') :
    truthyOpt (getField p' "type") = true ∧
    (∀ v, getField p "type" = some v → jsTruthy v = true → getField p' "type" = some v) ∧
    (∀ k, k ≠ "type" → getField p' k = getField p k) := by
  unfold addType at h
  by_cases ht : truthyOpt (getField p "type") = true
  · rw [if_pos ht] at h; cases h
    exact ⟨ht, fun v hv _ => hv, fun k _ => rfl⟩
  · rw [if_neg ht] at h
    cases p <;> simp [setField] at h
    next flds =>
      subst h
      refine ⟨?_, ?_, ?_⟩
      · simp [getField, lookupA_setA_self, truthyOpt, jsTruthy]
      · intro v hv htv
        have hcon : truthyOpt (getField (Json.obj flds) "type") = true := by
          rw [hv]; simpa [truthyOpt] using htv
        exact absurd hcon ht
      · intro k hk
        simp [getField, lookupA_setA_ne _ _ _ _ hk]

theorem addCommitizen_spec {p p' : Json} (h : addCommitizen p = some p') :
    truthyOpt (getField p' "config") = true ∧
    truthyOpt (getField2 p' "config" "commitizen") = true ∧
    (∀ v, getField2 p "config" "commitizen" = some v → jsTruthy v = true →
        getField2 p' "config" "commitizen" = some v) ∧
    (∀ k, k ≠ "config" → getField p' k = getField p k) := by
  unfold addCommitizen at h
  by_cases ht : truthyOpt (getField ((getField p "config").getD Json.null) "commitizen") = true
  · rw [if_pos ht] at h; cases h
    have ht2 : truthyOpt (getField2 p "config" "commitizen") = true := ht
    exact ⟨truthy1_of_truthy2 ht2, ht2, fun v hv _ => hv, fun k _ => rfl⟩
  · rw [if_neg ht] at h
    simp only [Bind.bind, Option.bind_eq_some] at h
    obtain ⟨config2, hsv, hset⟩ := h
    cases hc : (getField p "config").getD Json.null <;> rw [hc] at hsv <;>
      simp [setField] at hsv
    next cflds =>
      cases p <;> simp [setField] at hset
      next pflds =>
        subst hsv
        subst hset
        have hgc : getField (Json.obj (setA pflds "config"
            (Json.obj (setA cflds "commitizen" czConfig)))) "config"
            = some (Json.obj (setA cflds "commitizen" czConfig)) := by
          simp [getField, lookupA_setA_self]
        refine ⟨?_, ?_, ?_, ?_⟩
        · rw [hgc]; rfl
        · simp [getField2, hgc, getField, lookupA_setA_self, czConfig, truthyOpt, jsTruthy]
        · intro v hv htv
          have hv' : getField ((getField (Json.obj pflds) "config").getD Json.null)
              "commitizen" = some v := hv
          have hcon : truthyOpt (getField ((getField (Json.obj pflds) "config").getD
              Json.null) "commitizen") = true := by
            rw [hv']; simpa [truthyOpt] using htv
          exact absurd hcon ht
        · intro k hk
          simp [getField, lookupA_setA_ne _ _ _ _ hk]

theorem addScriptsLoop_spec (l : List (String × String)) :
    ∀ (pkg : Json) (acc : Bool) (pkg2 : Json) (b : Bool),
    (∀ q ∈ l, q.2 ≠ "") →
    truthyOpt (getField pkg "scripts") = true →
    addScriptsLoop pkg acc l = some (pkg2, b) →
    truthyOpt (getField pkg2 "scripts") = true ∧
    (∀ s v, getField2 pkg "scripts" s = some v → jsTruthy v = true →
        getField2 pkg2 "scripts" s = some v) ∧
    (∀ q ∈ l, truthyOpt (getField2 pkg2 "scripts" q.1) = true) ∧
    (∀ k, k ≠ "scripts" → getField pkg2 k = getField pkg k) := by
  induction l with
  | nil =>
    intro pkg acc pkg2 b _ hs h
    simp only [addScriptsLoop, Option.some_inj, Prod.mk.injEq] at h
    obtain ⟨h1, _⟩ := h
    subst h1
    exact ⟨hs, fun s v hv _ => hv, fun q hq => absurd hq (List.not_mem_nil q),
      fun k _ => rfl⟩
  | cons q rest ih =>
    obtain ⟨script, command⟩ := q
    intro pkg acc pkg2 b hl hs h
    have hcmd : command ≠ "" := hl (script, command) (List.mem_cons_self _ _)
    simp only [addScriptsLoop] at h
    by_cases hcond :
        truthyOpt (getField ((getField pkg "scripts").getD Json.null) script) = true
    · rw [if_pos hcond] at h
      obtain ⟨ih1, ih2, ih3, ih4⟩ :=
        ih pkg acc pkg2 b (fun q hq => hl q (List.mem_cons_of_mem _ hq)) hs h
      refine ⟨ih1, ih2, ?_, ih4⟩
      intro q hq
      rcases List.mem_cons.mp hq with h0 | hr
      · subst h0
        have hc2 : truthyOpt (getField2 pkg "scripts" script) = true := hcond
        cases hg : getField2 pkg "scripts" script with
        | none => rw [hg] at hc2; simp [truthyOpt] at hc2
        | some v =>
          rw [hg] at hc2
          have hp := ih2 script v hg hc2
          rw [hp]; exact hc2
      · exact ih3 q hr
    · rw [if_neg hcond] at h
      simp only [Bind.bind, Option.bind_eq_some] at h
      obtain ⟨scripts2, hsv, pkgB, hpb, h⟩ := h
      cases hscv : (getField pkg "scripts").getD Json.null <;> rw [hscv] at hsv <;>
        simp [setField] at hsv
      next sflds =>
        cases pkg <;> simp [setField] at hpb
        next pflds =>
          subst hsv
          subst hpb
          have hgB : getField (Json.obj (setA pflds "scripts"
              (Json.obj (setA sflds script (Json.str command))))) "scripts"
              = some (Json.obj (setA sflds script (Json.str command))) := by
            simp [getField, lookupA_setA_self]
          have hsB : truthyOpt (getField (Json.obj (setA pflds "scripts"
              (Json.obj (setA sflds script (Json.str command))))) "scripts") = true := by
            rw [hgB]; rfl
          have hscr : ∀ s, getField2 (Json.obj (setA pflds "scripts"
              (Json.obj (setA sflds script (Json.str command))))) "scripts" s
              = lookupA (setA sflds script (Json.str command)) s := by
            intro s
            unfold getField2
            rw [hgB]
            rfl
          have hold : ∀ s, getField2 (Json.obj pflds) "scripts" s = lookupA sflds s := by
            intro s
            unfold getField2
            rw [hscv]
            rfl
          have pres : ∀ s v, getField2 (Json.obj pflds) "scripts" s = some v →
              jsTruthy v = true → getField2 (Json.obj (setA pflds "scripts"
              (Json.obj (setA sflds script (Json.str command))))) "scripts" s = some v := by
            intro s v hv htv
            by_cases hss : s = script
            · subst hss
              have hcon : truthyOpt (getField ((getField (Json.obj pflds)
                  "scripts").getD Json.null) s) = true := by
                have hv' : getField ((getField (Json.obj pflds) "scripts").getD
                    Json.null) s = some v := hv
                rw [hv']; simpa [truthyOpt] using htv
              exact absurd hcon hcond
            · rw [hscr s, lookupA_setA_ne _ _ _ _ hss, ← hold s]
              exact hv
          have hhead : getField2 (Json.obj (setA pflds "scripts"
              (Json.obj (setA sflds script (Json.str command))))) "scripts" script
              = some (Json.str command) := by
            rw [hscr script, lookupA_setA_self]
          have hfr : ∀ k, k ≠ "scripts" → getField (Json.obj (setA pflds "scripts"
              (Json.obj (setA sflds script (Json.str command))))) k
              = getField (Json.obj pflds) k := by
            intro k hk
            simp [getField, lookupA_setA_ne _ _ _ _ hk]
          obtain ⟨ihm1, ihm2, ihm3, ihm4⟩ :=
            ih _ true pkg2 b (fun q hq => hl q (List.mem_cons_of_mem _ hq)) hsB h
          have htcmd : jsTruthy (Json.str command) = true := by
            simp [jsTruthy, hcmd]
          refine ⟨ihm1, ?_, ?_, ?_⟩
          · intro s v hv htv
            exact ihm2 s v (pres s v hv htv) htv
          · intro q hq
            rcases List.mem_cons.mp hq with h0 | hr
            · subst h0
              have hp := ihm2 script (Json.str command) hhead htcmd
              rw [hp]; exact htcmd
            · exact ihm3 q hr
          · intro k hk
            exact (ihm4 k hk).trans (hfr k hk)

/-- All fields `updatePackageJson` targets are truthy after a successful
patch, whether they pre-existed or were just added. -/
def postTruthy (j : Json) : Prop :=
  truthyOpt (getField j "scripts") = true ∧
  truthyOpt (getField2 j "scripts" "prepare") = true ∧
  truthyOpt (getField2 j "scripts" "commit") = true ∧
  truthyOpt (getField j "config") = true ∧
  truthyOpt (getField2 j "config" "commitizen") = true ∧
  truthyOpt (getField j "type") = true

theorem updatePackageJson_post {j j' : Json} {w : Bool}
    (h : updatePackageJson j = some (j', w)) : postTruthy j' := by
  simp only [updatePackageJson, Bind.bind, Option.bind_eq_some] at h
  obtain ⟨pkg1, h1, x, h2, h⟩ := h
  obtain ⟨pkg2, sa⟩ := x
  obtain ⟨pkg3, h3, pkg4, h4, pkg5, h5, hfin⟩ := h
  simp only [Option.some_inj, Prod.mk.injEq] at hfin
  obtain ⟨hj, hw⟩ := hfin
  subst hj
  have hs1 : truthyOpt (getField pkg1 "scripts") = true := ensureField_post h1
  obtain ⟨l1, l2, l3, l4⟩ := addScriptsLoop_spec scriptsToAdd pkg1 false pkg2 sa
    (by decide) hs1 h2
  have hprep2 : truthyOpt (getField2 pkg2 "scripts" "prepare") = true :=
    l3 ("prepare", "husky") (by simp [scriptsToAdd])
  have hcomm2 : truthyOpt (getField2 pkg2 "scripts" "commit") = true :=
    l3 ("commit", "cz") (by simp [scriptsToAdd])
  obtain ⟨c1, c2, c3, c4⟩ := addCommitizen_spec h4
  obtain ⟨t1, t2, t3⟩ := addType_spec h5
  have hch : getField pkg5 "scripts" = getField pkg2 "scripts" :=
    ((t3 "scripts" (by decide)).trans (c4 "scripts" (by decide))).trans
      (ensureField_frame h3 "scripts" (by decide))
  refine ⟨?_, ?_, ?_, ?_, ?_, ?_⟩
  · rw [hch]; exact l1
  · rw [getField2_congr "scripts" "prepare" hch]; exact hprep2
  · rw [getField2_congr "scripts" "commit" hch]; exact hcomm2
  · rw [t3 "config" (by decide)]; exact c1
  · rw [getField2_congr "config" "commitizen" (t3 "config" (by decide))]; exact c2
  · exact t1

theorem updatePackageJson_fixed {j : Json} (h : postTruthy j) :
    updatePackageJson j = some (j, false) := by
  obtain ⟨hsc, hp, hcm, hcf, hcz, hty⟩ := h
  have hp' : truthyOpt (getField ((getField j "scripts").getD Json.null) "prepare")
      = true := hp
  have hcm' : truthyOpt (getField ((getField j "scripts").getD Json.null) "commit")
      = true := hcm
  have hcz' : truthyOpt (getField ((getField j "config").getD Json.null) "commitizen")
      = true := hcz
  have hloop : addScriptsLoop j false scriptsToAdd = some (j, false) := by
    simp only [scriptsToAdd, addScriptsLoop]
    rw [if_pos hp', if_pos hcm']
  have hcomm : addCommitizen j = some j := by
    unfold addCommitizen
    rw [if_pos hcz']
  have htype : addType j = some j := by
    unfold addType
    rw [if_pos hty]
  simp only [updatePackageJson, Bind.bind, ensureField_of_truthy hsc,
    ensureField_of_truthy hcf, hloop, hcomm, htype, Option.bind_some, Option.some_bind,
    hcz, hty, Bool.not_true, Bool.or_false]

/-! ## Step-level and run-level lemmas -/

theorem updatePackageJsonStep_fixed {fs fs' : FS} {w : Bool}
    (h : updatePackageJsonStep fs = some (fs', w)) :
    updatePackageJsonStep fs' = some (fs', false) := by
  unfold updatePackageJsonStep at h ⊢
  split at h
  case _ entry heq =>
    split at h
    case _ j heqc =>
      split at h
      case _ j2 wrote hequ =>
        have hu2 : updatePackageJson j2 = some (j2, false) :=
          updatePackageJson_fixed (updatePackageJson_post hequ)
        split at h
        next hw =>
          simp only [Option.some_inj, Prod.mk.injEq] at h
          obtain ⟨hfs, hww⟩ := h
          subst hfs
          simp only [lookupA_setA_self, hu2]
          simp
        next hw =>
          simp only [Option.some_inj, Prod.mk.injEq] at h
          obtain ⟨hfs, hww⟩ := h
          subst hfs
          have hw' : wrote = false := by
            cases wrote
            · rfl
            · exact absurd rfl hw
          subst hw'
          simp only [heq, heqc, hequ]
          simp
      case _ hequ => cases h
    case _ x heqc => cases h
  case _ heq => cases h

theorem updatePackageJsonStep_frame {fs fs' : FS} {w : Bool}
    (h : updatePackageJsonStep fs = some (fs', w)) (p : String)
    (hp : p ≠ packageJsonPath) : lookupA fs' p = lookupA fs p := by
  unfold updatePackageJsonStep at h
  split at h
  case _ entry heq =>
    split at h
    case _ j heqc =>
      split at h
      case _ j2 wrote hequ =>
        split at h
        next hw =>
          simp only [Option.some_inj, Prod.mk.injEq] at h
          obtain ⟨hfs, hww⟩ := h
          subst hfs
          exact lookupA_setA_ne _ _ _ _ hp
        next hw =>
          simp only [Option.some_inj, Prod.mk.injEq] at h
          obtain ⟨hfs, hww⟩ := h
          subst hfs
          rfl
      case _ hequ => cases h
    case _ x heqc => cases h
  case _ heq => cases h

theorem updatePackageJsonStep_pkg {fs fs' : FS} {w : Bool}
    (h : updatePackageJsonStep fs = some (fs', w)) :
    (lookupA fs' packageJsonPath).isSome = true := by
  unfold updatePackageJsonStep at h
  split at h
  case _ entry heq =>
    split at h
    case _ j heqc =>
      split at h
      case _ j2 wrote hequ =>
        split at h
        next hw =>
          simp only [Option.some_inj, Prod.mk.injEq] at h
          obtain ⟨hfs, hww⟩ := h
          subst hfs
          rw [lookupA_setA_self]
          rfl
        next hw =>
          simp only [Option.some_inj, Prod.mk.injEq] at h
          obtain ⟨hfs, hww⟩ := h
          subst hfs
          rw [heq]
          rfl
      case _ hequ => cases h
    case _ x heqc => cases h
  case _ heq => cases h

theorem checkPre_ok {env : Env} {fs : FS}
    (h : checkPrerequisitesE env fs = Except.ok ()) :
    env.gitRepo = true ∧ (lookupA fs packageJsonPath).isSome = true := by
  unfold checkPrerequisitesE at h
  cases hg : env.gitRepo with
  | false => rw [hg] at h; simp at h
  | true =>
    rw [hg] at h
    simp only [Bool.not_true, Bool.false_eq_true, if_neg, not_false_eq_true] at h
    cases hl : lookupA fs packageJsonPath with
    | none => rw [hl] at h; simp at h
    | some e => exact ⟨rfl, rfl⟩

theorem checkPre_mk {env : Env} {fs : FS} (hg : env.gitRepo = true)
    (hp : (lookupA fs packageJsonPath).isSome = true) :
    checkPrerequisitesE env fs = Except.ok () := by
  unfold checkPrerequisitesE
  rw [hg]
  cases hl : lookupA fs packageJsonPath with
  | none => rw [hl] at hp; cases hp
  | some e => simp

theorem installDependencies_ok {env : Env} {fs : FS} {cmd : String}
    (h : installDependencies env fs = Except.ok cmd) : env.installOk = true := by
  unfold installDependencies at h
  cases hi : env.installOk with
  | true => rfl
  | false => rw [hi] at h; simp at h

theorem run_zero_inv {env : Env} {fs fs1 : FS} (h : run env fs = ⟨0, fs1⟩) :
    env.gitRepo = true ∧ env.installOk = true ∧
    (lookupA fs packageJsonPath).isSome = true ∧
    ∃ w, updatePackageJsonStep (copyConfigFiles fs).1 = some (fs1, w) := by
  unfold run at h
  split at h
  case _ e heq => simp at h
  case _ u heq =>
    obtain ⟨hg, hp⟩ := checkPre_ok (by rw [heq])
    split at h
    case _ e heq2 => simp at h
    case _ cmd heq2 =>
      have hi := installDependencies_ok heq2
      split at h
      case _ e heq3 => rw [initializeHusky] at heq3; cases heq3
      case _ b heq3 =>
        simp only [] at h
        split at h
        case _ r heq4 =>
          simp only [RunResult.mk.injEq] at h
          refine ⟨hg, hi, hp, r.2, ?_⟩
          rw [heq4, ← h.2]
        case _ heq4 => simp at h

theorem run_succ {env : Env} {fs fs2 : FS} {w : Bool}
    (hg : env.gitRepo = true) (hi : env.installOk = true)
    (hp : (lookupA fs packageJsonPath).isSome = true)
    (hstep : updatePackageJsonStep (copyConfigFiles fs).1 = some (fs2, w)) :
    run env fs = ⟨0, fs2⟩ := by
  unfold run
  rw [checkPre_mk hg hp]
  unfold installDependencies
  rw [hi]
  simp only [if_pos, initializeHusky, hstep]

/-! ## Concrete states used by the claim theorems -/

/-- The end-to-end scenario manifest of the spec, exactly the name field. -/
def nameOnlyManifest : Json := Json.obj [("name", Json.str "x")]

/-- The patched form `updatePackageJson` produces from `nameOnlyManifest`. -/
def nameOnlyPatched : Json := Json.obj
  [ ("name", Json.str "x"),
    ("scripts", Json.obj [("prepare", Json.str "husky"), ("commit", Json.str "cz")]),
    ("config", Json.obj [("commitizen", czConfig)]),
    ("type", Json.str "module") ]

/-- A fresh git project whose tree holds only the name-only manifest. -/
def freshFS : FS := [(packageJsonPath, ⟨Content.manifest nameOnlyManifest, false⟩)]

/-- Environment in which every delegated process succeeds. -/
def allOkEnv : Env := ⟨true, true, true⟩

/-- The tree a successful run leaves behind, starting from `freshFS`. -/
def finalFS : FS :=
  [ (packageJsonPath, ⟨Content.manifest nameOnlyPatched, false⟩),
    (".lintstagedrc.js", ⟨Content.template ".lintstagedrc.js", false⟩),
    ("commitlint.config.js", ⟨Content.template "commitlint.config.js", false⟩),
    (".nvmrc", ⟨Content.template ".nvmrc", false⟩),
    (".vscode/settings.json", ⟨Content.template ".vscode/settings.json", false⟩),
    (".vscode/extensions.json", ⟨Content.template ".vscode/extensions.json", false⟩),
    (".husky/pre-commit", ⟨Content.template ".husky/pre-commit", true⟩),
    (".husky/pre-push", ⟨Content.template ".husky/pre-push", true⟩),
    (".husky/commit-msg", ⟨Content.template ".husky/commit-msg", true⟩) ]

/-- A manifest whose commit script holds the empty string, a falsy value. -/
def emptyCommitManifest : Json :=
  Json.obj [("scripts", Json.obj [("commit", Json.str "")])]

/-- A manifest already holding both scripts, but neither commitizen config
nor a type field. -/
def scriptsOnlyManifest : Json := Json.obj
  [ ("name", Json.str "x"),
    ("scripts", Json.obj [("prepare", Json.str "husky"), ("commit", Json.str "cz")]) ]

/-- The in-memory document the patch builds from `scriptsOnlyManifest`. -/
def scriptsOnlyPatched : Json := Json.obj
  [ ("name", Json.str "x"),
    ("scripts", Json.obj [("prepare", Json.str "husky"), ("commit", Json.str "cz")]),
    ("config", Json.obj [("commitizen", czConfig)]),
    ("type", Json.str "module") ]

/-- A project tree holding `scriptsOnlyManifest` as its manifest. -/
def scriptsOnlyFS : FS :=
  [(packageJsonPath, ⟨Content.manifest scriptsOnlyManifest, false⟩)]

/-- A manifest with a custom, truthy commit script. -/
def keepCommitManifest : Json :=
  Json.obj [("scripts", Json.obj [("commit", Json.str "keep")])]

/-- The patch result for `keepCommitManifest`. -/
def keepCommitPatched : Json := Json.obj
  [ ("scripts", Json.obj [("commit", Json.str "keep"), ("prepare", Json.str "husky")]),
    ("config", Json.obj [("commitizen", czConfig)]),
    ("type", Json.str "module") ]

/-! ## Claim theorems -/

/-- Claim C2 (code bug): the write-back condition of `updatePackageJson`
tests `!packageJson.config.commitizen` and `!packageJson.type` on the
already-patched document, where they are always truthy, so the write-back
happens only when a script was added. On a manifest that already has both
scripts but lacks `config.commitizen` and `type`, both fields are added to
the in-memory document, yet the write-back flag is false and the tree is
left unchanged — the additions never reach disk, contradicting the spec's
"only perform the write-back I/O if any field was actually added". -/
theorem c2_conditional_writeback_bug :
    updatePackageJson scriptsOnlyManifest = some (scriptsOnlyPatched, false) ∧
    getField2 scriptsOnlyManifest "config" "commitizen" = none ∧
    getField scriptsOnlyManifest "type" = none ∧
    getField2 scriptsOnlyPatched "config" "commitizen" = some czConfig ∧
    getField scriptsOnlyPatched "type" = some (Json.str "module") ∧
    updatePackageJsonStep scriptsOnlyFS = some (scriptsOnlyFS, false) :=
  ⟨rfl, rfl, rfl, rfl, rfl, rfl⟩

/-- Claim C4: package-manager detection is a pure function of lock-file
presence at the project root, with pnpm-lock.yaml taking priority, then
yarn.lock, then the npm default. -/
theorem c4_detect_package_manager (fs : FS) :
    ((lookupA fs "pnpm-lock.yaml").isSome = true →
      detectPackageManager fs = PM.pnpm) ∧
    ((lookupA fs "pnpm-lock.yaml").isSome = false →
      (lookupA fs "yarn.lock").isSome = true → detectPackageManager fs = PM.yarn) ∧
    ((lookupA fs "pnpm-lock.yaml").isSome = false →
      (lookupA fs "yarn.lock").isSome = false → detectPackageManager fs = PM.npm) := by
  refine ⟨fun h1 => ?_, fun h1 h2 => ?_, fun h1 h2 => ?_⟩
  · simp [detectPackageManager, h1]
  · simp [detectPackageManager, h1, h2]
  · simp [detectPackageManager, h1, h2]

/-- Witness for C4: a directory containing only yarn.lock selects yarn. -/
theorem c4_detect_package_manager_witness :
    detectPackageManager [("yarn.lock", ⟨Content.user "lock", false⟩)] = PM.yarn :=
  (c4_detect_package_manager [("yarn.lock", ⟨Content.user "lock", false⟩)]).2.1 rfl rfl

/-- Claim C5: from a git repository whose manifest is exactly the name-only
document, a successful full run exits 0 and leaves exactly the manifest
patched with prepare, commit, commitizen path and module type written to
disk, plus the eight template files at their fixed destinations, the three
hooks executable — stated as the literal final tree. -/
theorem c5_end_to_end :
    run allOkEnv freshFS = ⟨0, finalFS⟩ ∧
    lookupA finalFS packageJsonPath
      = some ⟨Content.manifest nameOnlyPatched, false⟩ ∧
    getField2 nameOnlyPatched "scripts" "prepare" = some (Json.str "husky") ∧
    getField2 nameOnlyPatched "scripts" "commit" = some (Json.str "cz") ∧
    getField2 nameOnlyPatched "config" "commitizen"
      = some (Json.obj [("path", Json.str "cz-conventional-changelog")]) ∧
    getField nameOnlyPatched "type" = some (Json.str "module") :=
  ⟨rfl, rfl, rfl, rfl, rfl, rfl⟩

/-- Claim C6: when the git probe fails or the manifest file is absent, the
prerequisite check throws a descriptive error, the run exits 1, and the
target tree is returned exactly as it was — no mutation happened. -/
theorem c6_fatal_precondition (env : Env) (fs : FS)
    (h : env.gitRepo = false ∨ lookupA fs packageJsonPath = none) :
    (∃ msg, checkPrerequisitesE env fs = Except.error msg) ∧
    run env fs = ⟨1, fs⟩ := by
  have hc : ∃ msg, checkPrerequisitesE env fs = Except.error msg := by
    rcases h with hg | hp
    · exact ⟨"Not in a git repository. Run git init first.", by
        simp [checkPrerequisitesE, hg]⟩
    · cases hg : env.gitRepo with
      | false => exact ⟨"Not in a git repository. Run git init first.", by
          simp [checkPrerequisitesE, hg]⟩
      | true => exact ⟨"package.json not found. Run npm init first.", by
          simp [checkPrerequisitesE, hg, hp]⟩
  obtain ⟨msg, hmsg⟩ := hc
  refine ⟨⟨msg, hmsg⟩, ?_⟩
  unfold run
  rw [hmsg]

/-- Witness for C6: running in a non-git directory with an empty tree
exits 1 and creates nothing. -/
theorem c6_fatal_precondition_witness :
    run ⟨false, true, true⟩ [] = ⟨1, []⟩ :=
  (c6_fatal_precondition ⟨false, true, true⟩ [] (Or.inl rfl)).2

/-- Claim C7: the hooks-manager initialization never throws — its delegated
exit status does not influence the run at all — while a failing dependency
installation (with preconditions satisfied) aborts the whole run with
exit 1 before any mutation. -/
theorem c7_husky_failure_soft (g i b b' : Bool) (fs : FS) :
    run ⟨g, i, b⟩ fs = run ⟨g, i, b'⟩ fs ∧
    initializeHusky b = Except.ok b ∧
    (checkPrerequisitesE ⟨g, i, b⟩ fs = Except.ok () → i = false →
      run ⟨g, i, b⟩ fs = ⟨1, fs⟩) := by
  refine ⟨?_, rfl, fun hc hi => ?_⟩
  · unfold run
    simp only [initializeHusky, checkPrerequisitesE, installDependencies]
  · unfold run
    rw [hc]
    unfold installDependencies
    simp [hi]

/-- Witness for C7: with a manifest present in a git repository and a
failing installer, the run exits 1 regardless of the husky outcome. -/
theorem c7_husky_failure_soft_witness :
    run ⟨true, false, false⟩ freshFS = ⟨1, freshFS⟩ :=
  (c7_husky_failure_soft true false false true freshFS).2.2 rfl rfl

/-- Claim C10: materialization only ever touches the eight fixed
destination paths — every other path keeps its exact entry — and no file
is ever deleted by it. -/
theorem c10_copy_frame (fs : FS) (p : String) :
    (p ∉ filesToCopy.map Prod.snd →
      lookupA (copyConfigFiles fs).1 p = lookupA fs p) ∧
    ((lookupA fs p).isSome = true →
      (lookupA (copyConfigFiles fs).1 p).isSome = true) :=
  ⟨fun h => copyLoop_frame filesToCopy fs p h,
   fun h => copyLoop_isSome filesToCopy fs p h⟩

/-- Witness for C10: a user README survives materialization untouched. -/
theorem c10_copy_frame_witness :
    lookupA (copyConfigFiles [("README.md", ⟨Content.user "readme", false⟩)]).1
      "README.md" = some ⟨Content.user "readme", false⟩ :=
  ((c10_copy_frame [("README.md", ⟨Content.user "readme", false⟩)] "README.md").1
    (by decide)).trans rfl

/-- The exact pnpm command line `installDependencies` builds. -/
def pnpmInstallCmd : String := "pnpm add -D " ++ String.intercalate " " deps

/-- The exact npm command line `installDependencies` builds. -/
def npmInstallCmd : String := "npm install --save-dev " ++ String.intercalate " " deps

/-- Claim C9: the install command is chosen only between pnpm and npm — the
pnpm command exactly when detection yields pnpm, and the npm command in
every other case, including when detection yields yarn. -/
theorem c9_install_command (fs : FS) :
    (installCmd fs = pnpmInstallCmd ↔ detectPackageManager fs = PM.pnpm) ∧
    (detectPackageManager fs ≠ PM.pnpm → installCmd fs = npmInstallCmd) ∧
    (detectPackageManager fs = PM.yarn → installCmd fs = npmInstallCmd) := by
  have hneq : npmInstallCmd ≠ pnpmInstallCmd := by decide
  by_cases hd : detectPackageManager fs = PM.pnpm
  · refine ⟨⟨fun _ => hd, fun _ => ?_⟩, fun hc => absurd hd hc, fun hy => ?_⟩
    · simp [installCmd, hd, pnpmInstallCmd]
    · rw [hd] at hy
      exact absurd hy (by decide)
  · have hcmd : installCmd fs = npmInstallCmd := by
      simp [installCmd, hd, npmInstallCmd]
    refine ⟨⟨fun he => absurd (hcmd.symm.trans he) hneq, fun hp => absurd hp hd⟩,
      fun _ => hcmd, fun _ => hcmd⟩

/-- Witness for C9: with only yarn.lock present, detection says yarn but
the npm command is used. -/
theorem c9_install_command_witness :
    installCmd [("yarn.lock", ⟨Content.user "lock", false⟩)] = npmInstallCmd :=
  (c9_install_command [("yarn.lock", ⟨Content.user "lock", false⟩)]).2.2 rfl

/-- Claim C3, as stated, fails on the code: on an empty tree every hook
destination is freshly created, yet the per-file label re-tests
`fs.pathExists` after the copy (where it is always true), so the newly
created hooks are reported "updated"; the "created" state that actually
occurred is never reported for hooks. -/
theorem c3_counterexample :
    lookupA ([] : FS) ".husky/pre-commit" = none ∧
    (copyConfigFiles []).2 = [
      (".lintstagedrc.js", CopyAction.created),
      ("commitlint.config.js", CopyAction.created),
      (".nvmrc", CopyAction.created),
      (".vscode/settings.json", CopyAction.created),
      (".vscode/extensions.json", CopyAction.created),
      (".husky/pre-commit", CopyAction.updated),
      (".husky/pre-push", CopyAction.updated),
      (".husky/commit-msg", CopyAction.updated)] := ⟨rfl, rfl⟩

/-- Claim C3 (amended): per file of the copy loop, hook destinations are
always copied — even when already present — receive the executable bit,
and are always reported "updated" (even when newly created); every other
destination is copied only when absent (then reported "created") and is
left untouched and reported "skipped" when present. -/
theorem c3_overwrite_policy (fs : FS) (src dest : String) :
    (strStartsWith dest ".husky/" = true →
      lookupA (copyOne fs (src, dest)).1 dest = some ⟨Content.template src, true⟩ ∧
      (copyOne fs (src, dest)).2 = CopyAction.updated) ∧
    (strStartsWith dest ".husky/" = false →
      ((lookupA fs dest).isSome = true →
        copyOne fs (src, dest) = (fs, CopyAction.skipped)) ∧
      (lookupA fs dest = none →
        lookupA (copyOne fs (src, dest)).1 dest
          = some ⟨Content.template src, false⟩ ∧
        (copyOne fs (src, dest)).2 = CopyAction.created)) := by
  refine ⟨fun hh => ⟨?_, ?_⟩, fun hh => ⟨fun hs => ?_, fun hs => ⟨?_, ?_⟩⟩⟩
  · exact (copyOne_post fs (src, dest)).1 hh
  · simp [copyOne, hh, fsChmod, lookupA_setA_self]
  · simp [copyOne, hh, hs]
  · simp [copyOne, hh, hs, lookupA_setA_self]
  · simp [copyOne, hh, hs]

/-- Witness for C3 (amended): copying a hook into an empty tree installs
the executable template and reports "updated". -/
theorem c3_overwrite_policy_witness :
    lookupA (copyOne [] (".husky/pre-commit", ".husky/pre-commit")).1
      ".husky/pre-commit" = some ⟨Content.template ".husky/pre-commit", true⟩ ∧
    (copyOne [] (".husky/pre-commit", ".husky/pre-commit")).2 = CopyAction.updated :=
  (c3_overwrite_policy [] ".husky/pre-commit" ".husky/pre-commit").1 (by decide)

/-- Claim C1, as stated, fails on the code: the source guards each addition
with a JS truthiness test (`!packageJson.scripts[script]`), so a stored
commit script whose value is the empty string — falsy, though present —
is overwritten with the default "cz" instead of being preserved verbatim. -/
theorem c1_counterexample :
    getField2 emptyCommitManifest "scripts" "commit" = some (Json.str "") ∧
    (updatePackageJson emptyCommitManifest).map
      (fun r => getField2 r.1 "scripts" "commit") = some (some (Json.str "cz")) ∧
    Json.str "cz" ≠ Json.str "" := by
  refine ⟨rfl, rfl, fun h => ?_⟩
  injection h with h2
  exact absurd h2 (by decide)

/-- Claim C1 (amended): the patch step preserves every existing key whose
stored value is truthy (in particular every non-empty command string,
whether or not it equals the default); only keys that are absent or bound
to a falsy value are assigned — likewise for `config.commitizen` and the
top-level `type`. -/
theorem c1_no_overwrite {j j' : Json} {w : Bool}
    (h : updatePackageJson j = some (j', w)) :
    (∀ s v, getField2 j "scripts" s = some v → jsTruthy v = true →
        getField2 j' "scripts" s = some v) ∧
    (∀ v, getField2 j "config" "commitizen" = some v → jsTruthy v = true →
        getField2 j' "config" "commitizen" = some v) ∧
    (∀ v, getField j "type" = some v → jsTruthy v = true →
        getField j' "type" = some v) := by
  simp only [updatePackageJson, Bind.bind, Option.bind_eq_some] at h
  obtain ⟨pkg1, h1, x, h2, h⟩ := h
  obtain ⟨pkg2, sa⟩ := x
  obtain ⟨pkg3, h3, pkg4, h4, pkg5, h5, hfin⟩ := h
  simp only [Option.some_inj, Prod.mk.injEq] at hfin
  obtain ⟨hj, hw⟩ := hfin
  subst hj
  have hs1 : truthyOpt (getField pkg1 "scripts") = true := ensureField_post h1
  obtain ⟨l1, l2, l3, l4⟩ := addScriptsLoop_spec scriptsToAdd pkg1 false pkg2 sa
    (by decide) hs1 h2
  obtain ⟨c1c, c2c, c3c, c4c⟩ := addCommitizen_spec h4
  obtain ⟨t1, t2, t3⟩ := addType_spec h5
  refine ⟨?_, ?_, ?_⟩
  · intro s v hv htv
    obtain ⟨flds, hsf, _⟩ := getField2_some hv
    have htr : truthyOpt (getField j "scripts") = true := by rw [hsf]; rfl
    have hpkg1 : pkg1 = j := by
      have he := ensureField_of_truthy htr
      rw [he] at h1
      exact (Option.some_inj.mp h1).symm
    subst hpkg1
    have hv2 := l2 s v hv htv
    have hch : getField pkg5 "scripts" = getField pkg2 "scripts" :=
      ((t3 "scripts" (by decide)).trans (c4c "scripts" (by decide))).trans
        (ensureField_frame h3 "scripts" (by decide))
    rw [getField2_congr "scripts" s hch]
    exact hv2
  · intro v hv htv
    have e1 : getField pkg1 "config" = getField j "config" :=
      ensureField_frame h1 "config" (by decide)
    have e2 : getField pkg2 "config" = getField pkg1 "config" :=
      l4 "config" (by decide)
    have hv2 : getField2 pkg2 "config" "commitizen" = some v := by
      rw [getField2_congr "config" "commitizen" (e2.trans e1)]
      exact hv
    obtain ⟨flds, hcf, _⟩ := getField2_some hv2
    have htr : truthyOpt (getField pkg2 "config") = true := by rw [hcf]; rfl
    have hpkg3 : pkg3 = pkg2 := by
      have he := ensureField_of_truthy htr
      rw [he] at h3
      exact (Option.some_inj.mp h3).symm
    subst hpkg3
    have hv4 := c3c v hv2 htv
    rw [getField2_congr "config" "commitizen" (t3 "config" (by decide))]
    exact hv4
  · intro v hv htv
    have e1 : getField pkg1 "type" = getField j "type" :=
      ensureField_frame h1 "type" (by decide)
    have e2 : getField pkg2 "type" = getField pkg1 "type" := l4 "type" (by decide)
    have e3 : getField pkg3 "type" = getField pkg2 "type" :=
      ensureField_frame h3 "type" (by decide)
    have e4 : getField pkg4 "type" = getField pkg3 "type" := c4c "type" (by decide)
    have hv4 : getField pkg4 "type" = some v := by
      rw [e4, e3, e2, e1]; exact hv
    exact t2 v hv4 htv

/-- Witness for C1 (amended): a custom truthy commit script survives the
patch verbatim. -/
theorem c1_no_overwrite_witness :
    getField2 keepCommitPatched "scripts" "commit" = some (Json.str "keep") :=
  (c1_no_overwrite
    (rfl : updatePackageJson keepCommitManifest = some (keepCommitPatched, true))).1
    "commit" (Json.str "keep") rfl rfl

/-- Claim C8: the full sequence is idempotent on trees — if one run
succeeds with final tree fs1, a second run succeeds and leaves fs1
exactly (hooks are rewritten with identical content, non-hooks skipped,
no key duplicated or changed), and the second manifest patch performs no
write-back (its flag is false and the tree it returns is fs1 itself). -/
theorem c8_idempotence (env : Env) (fs fs1 : FS) (h : run env fs = ⟨0, fs1⟩) :
    run env fs1 = ⟨0, fs1⟩ ∧
    updatePackageJsonStep (copyConfigFiles fs1).1 = some (fs1, false) := by
  obtain ⟨hg, hi, hp, w, hstep⟩ := run_zero_inv h
  have hpost : ∀ f ∈ filesToCopy, postFor (copyConfigFiles fs).1 f :=
    copyLoop_post filesToCopy fs filesToCopy_dests_nodup
  have hpost1 : ∀ f ∈ filesToCopy, postFor fs1 f := by
    intro f hf
    refine postFor_of_lookup_eq ?_ (hpost f hf)
    refine updatePackageJsonStep_frame hstep f.2 ?_
    intro hc
    exact packageJson_not_dest (hc ▸ List.mem_map_of_mem Prod.snd hf)
  have hcopy1 : (copyConfigFiles fs1).1 = fs1 := copyLoop_id filesToCopy fs1 hpost1
  have hpkg1 : (lookupA fs1 packageJsonPath).isSome = true :=
    updatePackageJsonStep_pkg hstep
  have hfix : updatePackageJsonStep fs1 = some (fs1, false) :=
    updatePackageJsonStep_fixed hstep
  have hstep2 : updatePackageJsonStep (copyConfigFiles fs1).1 = some (fs1, false) := by
    rw [hcopy1]; exact hfix
  exact ⟨run_succ hg hi hpkg1 hstep2, hstep2⟩

/-- Witness for C8: the concrete end-to-end final tree is a fixed point of
the whole run. -/
theorem c8_idempotence_witness :
    run allOkEnv finalFS = ⟨0, finalFS⟩ ∧
    updatePackageJsonStep (copyConfigFiles finalFS).1 = some (finalFS, false) :=
  c8_idempotence allOkEnv freshFS finalFS rfl
